import Mathlib

/-!
Shallow embedding of `scripts/create_labels_v2.py` (TC-Prediction).

Modelling conventions:
* pandas `DataFrame`s become Lean lists of structure values, in row order;
  boolean-mask filtering becomes `List.filter`, which keeps row order.
* timestamps (`datetime` values, all at whole hours in this pipeline) are
  modelled as integers counting hours, so `d + timedelta(hours=leadtime)`
  is integer addition;
* `float` coordinates are modelled as rationals;
* fallible operations (`iloc` on a possibly-empty frame, `strptime`)
  return `Option`.
-/

namespace CreateLabelsV2

/-- One parsed row of the ibtracs best-track csv (columns used by the
script: `SID`, `ISO_TIME` (already parsed into `Date`), `LAT`, `LON`,
`NATURE`). -/
structure TrackRow where
  sid : String
  date : Int
  lat : ℚ
  lon : ℚ
  nature : String
  deriving DecidableEq

/-- One `.nc` observation file with its filename-parsed timestamp
(`list_reanalysis_files` row: `Date`, `Path`). -/
structure ObsFile where
  date : Int
  path : String
  deriving DecidableEq

/-- A row of `files_df` after `main` added `OriginalDate` and shifted
`Date` by the lead time. -/
structure FileRow where
  date : Int
  originalDate : Int
  path : String
  deriving DecidableEq

/-- A row of `files_genesis_df = pd.merge(files_df, genesis_df, how='left',
on='Date')`: the observation columns plus the matched genesis row's
columns (`none` when the left join found no match, i.e. the `SID`
column is NaN). -/
structure JoinedRow where
  date : Int
  originalDate : Int
  path : String
  genesis : Option TrackRow
  deriving DecidableEq

/-- One output row built by `create_labels`.  Fields that the non-genesis
branch omits from its dict are `Option`s that are `none` there. -/
structure LabelRow where
  date : Int
  genesis : Bool
  tc : Bool
  tcId : Option String
  longitude : Option ℚ
  latitude : Option ℚ
  firstObserved : Option Int
  lastObserved : Option Int
  firstObservedType : Option String
  willDevelop : Option Bool
  developingDate : Option Int
  otherTCHappening : Bool
  otherTCLocations : List (ℚ × ℚ)
  path : String
  deriving DecidableEq

/-- The spatial domain `(latmin, latmax, lonmin, lonmax)` returned by
`get_domain`. -/
structure Domain where
  latmin : ℚ
  latmax : ℚ
  lonmin : ℚ
  lonmax : ℚ
  deriving DecidableEq

/-- `lambda l: l if l > 0 else 360 + l` (the longitude conversion in
`load_best_track`). -/
def normalizeLon (l : ℚ) : ℚ :=
  if l > 0 then l else 360 + l

/-- Applying the longitude conversion to a catalog row (`df['LON'] =
df['LON'].apply(...)`). -/
def normalizeRow (r : TrackRow) : TrackRow :=
  { r with lon := normalizeLon r.lon }

/-- The nested `filter_by_domain` of `load_best_track`: keep the rows
whose (already converted) coordinates satisfy
`lonmin ≤ LON ≤ lonmax` and `latmin ≤ LAT ≤ latmax`. -/
def filter_by_domain (domain : Domain) (df : List TrackRow) : List TrackRow :=
  df.filter (fun r =>
    decide (domain.lonmin ≤ r.lon) && decide (r.lon ≤ domain.lonmax) &&
    decide (domain.latmin ≤ r.lat) && decide (r.lat ≤ domain.latmax))

/-- `df.groupby('SID', sort=False).first()`: one row per distinct `SID`
in first-seen order, namely the first row of the file carrying that
`SID`.  `seen` accumulates the `SID`s already emitted. -/
def firstPerSid : List TrackRow → List String → List TrackRow
  | [], _ => []
  | r :: rest, seen =>
      if r.sid ∈ seen then firstPerSid rest seen
      else r :: firstPerSid rest (r.sid :: seen)

/-- `load_best_track` after csv parsing: convert longitudes, take the
first row per `SID` as the genesis table, and return both tables
filtered by the domain box. -/
def load_best_track (domain : Domain) (catalog : List TrackRow) :
    List TrackRow × List TrackRow :=
  let df := catalog.map normalizeRow
  let genesis_df := firstPerSid df []
  (filter_by_domain domain genesis_df, filter_by_domain domain df)

/-- `last_observed` inside `create_labels`: the `Date` of the last row
(`iloc[-1]`, file order) of `best_track_df` whose `SID` equals the
current row's `SID`; `none` models the `IndexError` on an empty frame. -/
def last_observed (best_track_df : List TrackRow) (sid : String) : Option Int :=
  ((best_track_df.filter (fun p => p.sid == sid)).getLast?).map (fun p => p.date)

/-- `will_develop_to_tc`: `'TS' in df['NATURE'].values` over the rows of
`best_track_df` sharing the current row's `SID`. -/
def will_develop_to_tc (best_track_df : List TrackRow) (sid : String) : Bool :=
  (best_track_df.filter (fun p => p.sid == sid)).any (fun p => p.nature == "TS")

/-- `develop_to_tc_date`: when `will_develop_to_tc`, the `Date` of the
first (`iloc[0]`) row with this `SID` and `NATURE == 'TS'`; else `None`. -/
def develop_to_tc_date (best_track_df : List TrackRow) (sid : String) : Option Int :=
  if will_develop_to_tc best_track_df sid then
    (((best_track_df.filter (fun p => p.sid == sid)).filter
        (fun p => p.nature == "TS")).head?).map (fun p => p.date)
  else none

/-- `other_tc`: the rows of `best_track_df` whose `Date` equals the
current row's `OriginalDate` and whose `SID` differs from the current
row's `SID`.  When the row has no `SID` (NaN, i.e. a non-genesis row),
the pandas comparison `SID != NaN` is true for every row, so every row
at that date qualifies. -/
def other_tc (best_track_df : List TrackRow) (row : JoinedRow) : List TrackRow :=
  best_track_df.filter (fun p =>
    p.date == row.originalDate &&
    (match row.genesis with
     | some g => !(p.sid == g.sid)
     | none => true))

/-- The body of the `for` loop of `create_labels`: build one label dict
from one joined row.  `has_genesis` is `row.notna()['SID']`, i.e.
whether the left join matched a genesis row. -/
def mkLabel (best_track_df : List TrackRow) (row : JoinedRow) : LabelRow :=
  let other_tc_df := other_tc best_track_df row
  let other_tc_locations := other_tc_df.map (fun p => (p.lat, p.lon))
  match row.genesis with
  | some g =>
      { date := row.date
        genesis := true
        tc := true
        tcId := some g.sid
        longitude := some g.lon
        latitude := some g.lat
        firstObserved := some row.date
        lastObserved := last_observed best_track_df g.sid
        firstObservedType := some g.nature
        willDevelop := some (will_develop_to_tc best_track_df g.sid)
        developingDate := develop_to_tc_date best_track_df g.sid
        otherTCHappening := decide (0 < other_tc_df.length)
        otherTCLocations := other_tc_locations
        path := row.path }
  | none =>
      { date := row.date
        genesis := false
        tc := false
        tcId := none
        longitude := none
        latitude := none
        firstObserved := none
        lastObserved := none
        firstObservedType := none
        willDevelop := none
        developingDate := none
        otherTCHappening := decide (0 < other_tc_df.length)
        otherTCLocations := other_tc_locations
        path := row.path }

/-- `create_labels(file_genesis_df, best_track_df)`: one label row per
joined row, in order. -/
def create_labels (file_genesis_df : List JoinedRow) (best_track_df : List TrackRow) :
    List LabelRow :=
  file_genesis_df.map (mkLabel best_track_df)

/-- `main`'s construction of `files_df` after `list_reanalysis_files`:
`OriginalDate` keeps the parsed date, `Date` is shifted by
`timedelta(hours=leadtime)`. -/
def shiftFiles (leadtime : Int) (files : List ObsFile) : List FileRow :=
  files.map (fun f => ⟨f.date + leadtime, f.date, f.path⟩)

/-- Insert into a list sorted by `Date` (helper for
`files_df.sort_values('Date')`). -/
def insertByDate (f : FileRow) : List FileRow → List FileRow
  | [] => [f]
  | g :: rest => if f.date ≤ g.date then f :: g :: rest else g :: insertByDate f rest

/-- `files_df.sort_values('Date')` (the claims only depend on the result
being a by-date-sorted permutation, which insertion sort produces). -/
def sortFiles : List FileRow → List FileRow
  | [] => []
  | f :: rest => insertByDate f (sortFiles rest)

/-- The join rows produced by one left row of
`pd.merge(files_df, genesis_df, how='left', on='Date')`: one row per
matching genesis row (in genesis order), or a single row with NaN
genesis columns when nothing matches. -/
def joinChunk (genesis_df : List TrackRow) (f : FileRow) : List JoinedRow :=
  let hits := genesis_df.filter (fun g => g.date == f.date)
  if hits.isEmpty then [⟨f.date, f.originalDate, f.path, none⟩]
  else hits.map (fun g => ⟨f.date, f.originalDate, f.path, some g⟩)

/-- `pd.merge(files_df, genesis_df, how='left', on='Date')`: every left
row survives in order, fanning out on multiple matches. -/
def leftJoin (files : List FileRow) (genesis_df : List TrackRow) : List JoinedRow :=
  files.flatMap (joinChunk genesis_df)

/-- `main` up to the merge: shift the file dates, sort, load the best
track (the domain, read from the first file by `get_domain`, is a
parameter here), and left-join files against genesis events on `Date`. -/
def mainJoined (leadtime : Int) (files : List ObsFile) (catalog : List TrackRow)
    (domain : Domain) : List JoinedRow :=
  leftJoin (sortFiles (shiftFiles leadtime files)) (load_best_track domain catalog).1

/-- `main` up to `create_labels`. -/
def mainLabels (leadtime : Int) (files : List ObsFile) (catalog : List TrackRow)
    (domain : Domain) : List LabelRow :=
  create_labels (mainJoined leadtime files catalog domain) (load_best_track domain catalog).2

/-- The post-filter of `main`: unless `--keep-pre-existing-storms` is
set, keep only the rows with `Genesis` or without
`Is Other TC Happening`. -/
def postFilter (keep_pre_existing_storms : Bool) (labels_df : List LabelRow) :
    List LabelRow :=
  if keep_pre_existing_storms then labels_df
  else labels_df.filter (fun l => l.genesis || !l.otherTCHappening)

/-- The full pipeline from in-memory inputs to the written table. -/
def mainOutput (leadtime : Int) (keep_pre_existing_storms : Bool) (files : List ObsFile)
    (catalog : List TrackRow) (domain : Domain) : List LabelRow :=
  postFilter keep_pre_existing_storms (mainLabels leadtime files catalog domain)

/-! ### The File Indexer: `parse_date_from_nc_filename`

Filenames are modelled as `List Char`.  `datetime.strptime` with the
fixed format `'%Y%m%d_%H_%M'` is embedded by the deterministic
semantics of CPython's `_strptime` regex for that format
(`\d\d\d\d` for `%Y`; `1[0-2]|0[1-9]|[1-9]` for `%m`;
`3[01]|[12]\d|0[1-9]|[1-9]` for `%d`; `2[0-3]|[0-1]\d|\d` for `%H`;
`[0-5]\d|\d` for `%M`; anchored, whole string consumed, alternatives
tried left to right with backtracking) followed by the `datetime`
constructor's calendar validation (`MINYEAR = 1`, day within month). -/

/-- The result of a successful `datetime.strptime` call (only the fields
the format sets). -/
structure PDateTime where
  year : Nat
  month : Nat
  day : Nat
  hour : Nat
  minute : Nat
  deriving DecidableEq

/-- Value of an ASCII digit character. -/
def dval (c : Char) : Nat := c.toNat - 48

/-- The numeric value of a digit string, as `int()` reads it. -/
def natOfDigits (l : List Char) : Nat :=
  l.foldl (fun a c => 10 * a + dval c) 0

/-- One step of `splitOnChar`: prepend character `x` to split result `r`. -/
def splitOnCharAux (c x : Char) (r : List (List Char)) : List (List Char) :=
  if x = c then [] :: r
  else
    match r with
    | [] => [[x]]
    | h :: t => (x :: h) :: t

/-- Split a character list at every occurrence of `c` (the semantics of
Python's `str.split(c)` for a one-character separator: `n` separators
give `n+1` pieces, empty pieces included). -/
def splitOnChar (c : Char) : List Char → List (List Char)
  | [] => [[]]
  | x :: xs => splitOnCharAux c x (splitOnChar c xs)

/-- `os.path.basename`: everything after the last path separator. -/
def basename (l : List Char) : List Char :=
  (l.reverse.takeWhile (fun c => !(c == '/'))).reverse

/-- The stem part of `os.path.splitext`: cut at the last dot, provided
some character of the base before that dot is not itself a dot
(CPython's leading-dot rule, under which `.nc`-style hidden names keep
their dots). -/
def splitextStem (l : List Char) : List Char :=
  match l.reverse.findIdx? (fun c => c == '.') with
  | none => l
  | some i =>
      let dotIdx := l.length - 1 - i
      if (l.take dotIdx).any (fun c => !(c == '.')) then l.take dotIdx else l

/-- The month-day part of the `%Y%m%d` match: the run of digits `w`
standing between the four year digits and the first `_`.  The regex
alternatives reduce to value-range tests; the branch order reproduces
the regex's left-to-right alternative order (a two-digit `10`–`12`
month wins over a one-digit month when both could match). -/
def monthDayOf : List Char → Option (Nat × Nat)
  | [a, b] =>
      if 1 ≤ dval a && 1 ≤ dval b then some (dval a, dval b) else none
  | [a, b, c] =>
      if 10 ≤ natOfDigits [a, b] && natOfDigits [a, b] ≤ 12 && 1 ≤ dval c then
        some (natOfDigits [a, b], dval c)
      else if dval a = 0 && 1 ≤ dval b && 1 ≤ dval c then
        some (dval b, dval c)
      else if 1 ≤ dval a && 1 ≤ natOfDigits [b, c] && natOfDigits [b, c] ≤ 31 then
        some (dval a, natOfDigits [b, c])
      else none
  | [a, b, c, d] =>
      if 1 ≤ natOfDigits [a, b] && natOfDigits [a, b] ≤ 12 &&
          1 ≤ natOfDigits [c, d] && natOfDigits [c, d] ≤ 31 then
        some (natOfDigits [a, b], natOfDigits [c, d])
      else none
  | _ => none

/-- The `%H` match: one digit, or two digits up to `23`. -/
def hourOf : List Char → Option Nat
  | [a] => some (dval a)
  | [a, b] => if natOfDigits [a, b] ≤ 23 then some (natOfDigits [a, b]) else none
  | _ => none

/-- The `%M` match: one digit, or two digits up to `59`. -/
def minuteOf : List Char → Option Nat
  | [a] => some (dval a)
  | [a, b] => if natOfDigits [a, b] ≤ 59 then some (natOfDigits [a, b]) else none
  | _ => none

/-- Python's leap-year rule (`calendar.isleap`). -/
def isLeap (y : Nat) : Bool :=
  (y % 4 == 0 && !(y % 100 == 0)) || y % 400 == 0

/-- Days in a month, as the `datetime` constructor validates them. -/
def daysInMonth (y m : Nat) : Nat :=
  if m = 2 then (if isLeap y then 29 else 28)
  else if m = 4 ∨ m = 6 ∨ m = 9 ∨ m = 11 then 30
  else 31

/-- `datetime.strptime(s, '%Y%m%d_%H_%M')`, `none` for `ValueError`. -/
def strptimeYmdHM (s : List Char) : Option PDateTime :=
  match splitOnChar '_' s with
  | [p0, p1, p2] =>
      if p0.all Char.isDigit && p1.all Char.isDigit && p2.all Char.isDigit then
        match monthDayOf (p0.drop 4), hourOf p1, minuteOf p2 with
        | some (m, d), some h, some mi =>
            let y := natOfDigits (p0.take 4)
            if 1 ≤ y && d ≤ daysInMonth y m then some ⟨y, m, d, h, mi⟩ else none
        | _, _, _ => none
      else none
  | _ => none

/-- `parse_date_from_nc_filename`: strip directory and extension, drop
the first `_`-separated token, rejoin the rest with `_`, and parse it
with `strptime('%Y%m%d_%H_%M')`. -/
def parse_date_from_nc_filename (filename : List Char) : Option PDateTime :=
  let stem := splitextStem (basename filename)
  let datepart := List.intercalate ['_'] ((splitOnChar '_' stem).drop 1)
  strptimeYmdHM datepart

/-- Modelled from the spec: the face-value reading of "the fixed pattern
`YYYYMMDD_HH_MM`" — four year digits, a two-digit month `01`–`12`, a
two-digit day `01`–`31`, an underscore, a two-digit hour `00`–`23`, an
underscore, and a two-digit minute `00`–`59`. -/
def matchesSpecPattern : List Char → Bool
  | [y1, y2, y3, y4, a, b, c, d, u1, h1, h2, u2, n1, n2] =>
      u1 == '_' && u2 == '_' &&
      [y1, y2, y3, y4, a, b, c, d, h1, h2, n1, n2].all Char.isDigit &&
      1 ≤ natOfDigits [a, b] && natOfDigits [a, b] ≤ 12 &&
      1 ≤ natOfDigits [c, d] && natOfDigits [c, d] ≤ 31 &&
      natOfDigits [h1, h2] ≤ 23 && natOfDigits [n1, n2] ≤ 59
  | _ => false

/-! ### Concrete sample inputs used by witnesses and counterexamples -/

/-- A small domain box covering all sample coordinates. -/
def dom0 : Domain := ⟨-90, 90, 0, 360⟩

/-- A catalog whose first storm is recorded out of time order (first-in-file
row at hour 5, an earlier row at hour 3). -/
def cat0 : List TrackRow :=
  [⟨"AL012023", 5, 10, 100, "TD"⟩, ⟨"AL012023", 3, 11, 101, "TS"⟩,
   ⟨"EP022023", 4, 12, 102, "TS"⟩]

/-- One observation file at hour 5. -/
def files0 : List ObsFile := [⟨5, "obs_a.nc"⟩]

/-- A two-storm catalog with both storms active at hour 5. -/
def best1 : List TrackRow :=
  [⟨"AL012023", 5, 10, 100, "TD"⟩, ⟨"BB", 5, 20, 200, "TS"⟩]

/-- A joined row whose left join matched the first storm of `best1`. -/
def jrowA : JoinedRow := ⟨5, 5, "obs_a.nc", some ⟨"AL012023", 5, 10, 100, "TD"⟩⟩

/-- A one-row joined table. -/
def rows1 : List JoinedRow := [jrowA]

/-- A time-ordered one-storm catalog. -/
def best2 : List TrackRow :=
  [⟨"AL012023", 3, 10, 100, "TD"⟩, ⟨"AL012023", 5, 10, 100, "TS"⟩, ⟨"BB", 4, 20, 200, "TS"⟩]

/-- A joined row that found no genesis match (shifted by lead time 2). -/
def jrow0 : JoinedRow := ⟨7, 5, "obs_a.nc", none⟩

/-! ### C7 — longitude normalization -/

/-- C7 counterexample: the claim says every normalized longitude lies in
[0, 360).  The code maps the raw longitude 0 (which is ≤ 0) to 360,
which is not below 360, so the range claim fails at 0. -/
theorem c7_counterexample :
    normalizeLon 0 = 360 ∧ ¬(0 ≤ normalizeLon 0 ∧ normalizeLon 0 < 360) := by
  constructor
  · norm_num [normalizeLon]
  · norm_num [normalizeLon]

/-- C7 (amended): the Track Loader leaves a raw longitude unchanged when
it is > 0 and replaces it by the value + 360 when it is ≤ 0; for raw
values in (-360, 360] the normalized value lies in (0, 360] (not
[0, 360): a raw 0 becomes 360). -/
theorem c7_normalizeLon (l : ℚ) :
    (0 < l → normalizeLon l = l) ∧ (l ≤ 0 → normalizeLon l = 360 + l) ∧
    (-360 < l → l ≤ 360 → 0 < normalizeLon l ∧ normalizeLon l ≤ 360) := by
  unfold normalizeLon
  split_ifs with h
  · exact ⟨fun _ => rfl, fun hle => absurd h (not_lt.mpr hle),
      fun _ _ => ⟨h, by linarith⟩⟩
  · push_neg at h
    exact ⟨fun hlt => absurd hlt (not_lt.mpr h), fun _ => rfl,
      fun h1 _ => ⟨by linarith, by linarith⟩⟩

/-- C7 witness: the amended range statement applied at the raw value -10. -/
theorem c7_witness : 0 < normalizeLon (-10) ∧ normalizeLon (-10) ≤ 360 :=
  (c7_normalizeLon (-10)).2.2 (by norm_num) (by norm_num)

/-! ### C4 — the pre-existing-storm post-filter -/

/-- C4: without `--keep-pre-existing-storms` the post-filter drops exactly
the rows with `Genesis` false and `Is Other TC Happening` true — so no
surviving row has that combination and every genesis row survives —
while with the option set the table passes through unchanged. -/
theorem c4_postFilter (labels_df : List LabelRow) :
    postFilter false labels_df =
      labels_df.filter
        (fun l => !(decide (l.genesis = false) && decide (l.otherTCHappening = true))) ∧
    (∀ l ∈ postFilter false labels_df, ¬(l.genesis = false ∧ l.otherTCHappening = true)) ∧
    (∀ l ∈ labels_df, l.genesis = true → l ∈ postFilter false labels_df) ∧
    postFilter true labels_df = labels_df := by
  have hfalse : postFilter false labels_df =
      labels_df.filter (fun l => l.genesis || !l.otherTCHappening) := rfl
  refine ⟨?_, ?_, ?_, rfl⟩
  · rw [hfalse]
    refine List.filter_congr (fun l _ => ?_)
    cases hg : l.genesis <;> cases ho : l.otherTCHappening <;> simp [hg, ho]
  · intro l hl
    rw [hfalse] at hl
    have := (List.mem_filter.mp hl).2
    cases hg : l.genesis <;> cases ho : l.otherTCHappening <;> simp_all
  · intro l hl hg
    rw [hfalse]
    exact List.mem_filter.mpr ⟨hl, by simp [hg]⟩

/-- A sample label row with concurrent activity but genesis set. -/
def lbl4 : LabelRow :=
  ⟨5, true, true, some "AL012023", some 100, some 10, some 5, some 5, some "TD",
   some true, some 3, true, [(20, 200)], "obs_a.nc"⟩

/-- C4 witness: a genesis row with concurrent activity survives the
post-filter. -/
theorem c4_witness : lbl4 ∈ postFilter false [lbl4] :=
  (c4_postFilter [lbl4]).2.2.1 lbl4 (List.mem_singleton.mpr rfl) rfl

/-! ### C9 — the domain filter -/

/-- The bounding-box predicate of the spec. -/
def inDomain (domain : Domain) (r : TrackRow) : Prop :=
  domain.latmin ≤ r.lat ∧ r.lat ≤ domain.latmax ∧
  domain.lonmin ≤ r.lon ∧ r.lon ≤ domain.lonmax

/-- C9: both tables returned by `load_best_track` contain exactly the
rows of their (longitude-normalized) source tables that lie inside the
domain box — so every retained genesis event and track point is in the
box, and every point outside the box appears in neither table. -/
theorem c9_domain_filter (domain : Domain) (catalog : List TrackRow) :
    (∀ r ∈ (load_best_track domain catalog).1, inDomain domain r) ∧
    (∀ r ∈ (load_best_track domain catalog).2, inDomain domain r) ∧
    (∀ r, r ∈ (load_best_track domain catalog).1 ↔
      r ∈ firstPerSid (catalog.map normalizeRow) [] ∧ inDomain domain r) ∧
    (∀ r, r ∈ (load_best_track domain catalog).2 ↔
      r ∈ catalog.map normalizeRow ∧ inDomain domain r) := by
  have hmem : ∀ (df : List TrackRow) (r : TrackRow),
      r ∈ filter_by_domain domain df ↔ r ∈ df ∧ inDomain domain r := by
    intro df r
    unfold filter_by_domain inDomain
    rw [List.mem_filter]
    simp only [Bool.and_eq_true, decide_eq_true_eq, and_assoc]
    tauto
  refine ⟨?_, ?_, ?_, ?_⟩
  · intro r hr
    exact ((hmem _ r).mp hr).2
  · intro r hr
    exact ((hmem _ r).mp hr).2
  · intro r
    exact hmem _ r
  · intro r
    exact hmem _ r

/-- C9 witness: a concrete in-box track point is retained by
`load_best_track` and satisfies the box bounds. -/
theorem c9_witness : inDomain dom0 ⟨"AL012023", 5, 10, 100, "TD"⟩ :=
  (c9_domain_filter dom0 cat0).2.1 ⟨"AL012023", 5, 10, 100, "TD"⟩ (by decide)

/-! ### C1 — the other-TC selection -/

/-- Boolean equality agrees with decidable propositional equality. -/
theorem beq_as_decide {α : Type} [DecidableEq α] [BEq α] [LawfulBEq α] (a b : α) :
    (a == b) = decide (a = b) := by
  by_cases h : a = b <;> simp [h]

/-- The genesis branch of `create_labels` as one record equation. -/
theorem mkLabel_some (best : List TrackRow) (row : JoinedRow) (g : TrackRow)
    (hg : row.genesis = some g) :
    mkLabel best row =
      { date := row.date, genesis := true, tc := true, tcId := some g.sid,
        longitude := some g.lon, latitude := some g.lat, firstObserved := some row.date,
        lastObserved := last_observed best g.sid, firstObservedType := some g.nature,
        willDevelop := some (will_develop_to_tc best g.sid),
        developingDate := develop_to_tc_date best g.sid,
        otherTCHappening := decide (0 < (other_tc best row).length),
        otherTCLocations := (other_tc best row).map (fun p => (p.lat, p.lon)),
        path := row.path } := by
  obtain ⟨d, od, pth, gen⟩ := row
  cases gen with
  | none => exact absurd hg (by simp)
  | some g0 =>
      obtain rfl : g0 = g := by simpa using hg
      rfl

/-- The `Will Develop to TC` field of a genesis row. -/
theorem mkLabel_willDevelop (best : List TrackRow) (row : JoinedRow) (g : TrackRow)
    (hg : row.genesis = some g) :
    (mkLabel best row).willDevelop = some (will_develop_to_tc best g.sid) := by
  rw [mkLabel_some best row g hg]

/-- The `Developing Date` field of a genesis row. -/
theorem mkLabel_developingDate (best : List TrackRow) (row : JoinedRow) (g : TrackRow)
    (hg : row.genesis = some g) :
    (mkLabel best row).developingDate = develop_to_tc_date best g.sid := by
  rw [mkLabel_some best row g hg]

/-- The `Last Observed` field of a genesis row. -/
theorem mkLabel_lastObserved (best : List TrackRow) (row : JoinedRow) (g : TrackRow)
    (hg : row.genesis = some g) :
    (mkLabel best row).lastObserved = last_observed best g.sid := by
  rw [mkLabel_some best row g hg]

/-- The `First Observed` field of a genesis row. -/
theorem mkLabel_firstObserved (best : List TrackRow) (row : JoinedRow) (g : TrackRow)
    (hg : row.genesis = some g) :
    (mkLabel best row).firstObserved = some row.date := by
  rw [mkLabel_some best row g hg]

/-- Every label row carries its joined row's (shifted) date. -/
theorem mkLabel_date (best : List TrackRow) (row : JoinedRow) :
    (mkLabel best row).date = row.date := by
  cases h : row.genesis with
  | none =>
      obtain ⟨d, od, pth, gen⟩ := row
      cases gen with
      | none => rfl
      | some g0 => simp at h
  | some g0 => rw [mkLabel_some best row g0 h]

/-- A label row is a genesis row exactly when its joined row matched a
genesis event. -/
theorem mkLabel_genesis (best : List TrackRow) (row : JoinedRow) :
    (mkLabel best row).genesis = row.genesis.isSome := by
  cases h : row.genesis with
  | none =>
      obtain ⟨d, od, pth, gen⟩ := row
      cases gen with
      | none => rfl
      | some g0 => simp at h
  | some g0 =>
      rw [mkLabel_some best row g0 h]
      simp [h]


/-- Both branches of `create_labels` store the same
`Is Other TC Happening` value. -/
theorem mkLabel_otherTCHappening (best_track_df : List TrackRow) (row : JoinedRow) :
    (mkLabel best_track_df row).otherTCHappening =
      decide (0 < (other_tc best_track_df row).length) := by
  cases h : row.genesis <;> simp [mkLabel, h]

/-- Both branches of `create_labels` store the same `Other TC Locations`
value. -/
theorem mkLabel_otherTCLocations (best_track_df : List TrackRow) (row : JoinedRow) :
    (mkLabel best_track_df row).otherTCLocations =
      (other_tc best_track_df row).map (fun p => (p.lat, p.lon)) := by
  cases h : row.genesis <;> simp [mkLabel, h]

/-- The rows selected by `other_tc` are exactly the track rows at the
row's original date whose storm id differs from the row's storm id
(every row qualifying when the row has none). -/
theorem other_tc_eq (best_track_df : List TrackRow) (row : JoinedRow) :
    other_tc best_track_df row =
      best_track_df.filter (fun p => decide (p.date = row.originalDate) &&
        match row.genesis with
        | some g => decide (p.sid ≠ g.sid)
        | none => true) := by
  unfold other_tc
  refine List.filter_congr (fun p _ => ?_)
  cases h : row.genesis <;> simp [h, beq_as_decide]

/-- C1: for every output row of `create_labels` (genesis or not), the
selection behind `Is Other TC Happening` / `Other TC Locations` consists
of exactly the track rows whose date equals the row's original
(pre-shift) date and whose storm id differs from the row's storm id
(every such row qualifying when the row has no storm id);
`Is Other TC Happening` is true iff the selection is non-empty, and
`Other TC Locations` is the list of (lat, lon) pairs of the selection in
catalog order. -/
theorem c1_other_tc_selection (best_track_df : List TrackRow) (rows : List JoinedRow)
    (i : Nat) (l : LabelRow) (row : JoinedRow)
    (h1 : (create_labels rows best_track_df).get? i = some l)
    (h2 : rows.get? i = some row) :
    (l.otherTCHappening = true ↔
      ∃ p ∈ best_track_df, p.date = row.originalDate ∧
        ∀ g, row.genesis = some g → p.sid ≠ g.sid) ∧
    l.otherTCLocations =
      (best_track_df.filter (fun p => decide (p.date = row.originalDate) &&
        match row.genesis with
        | some g => decide (p.sid ≠ g.sid)
        | none => true)).map (fun p => (p.lat, p.lon)) := by
  have hl : l = mkLabel best_track_df row := by
    have : (create_labels rows best_track_df).get? i = some (mkLabel best_track_df row) := by
      unfold create_labels
      rw [List.get?_map, h2]
      rfl
    rw [this] at h1
    exact (Option.some_inj.mp h1).symm
  subst hl
  constructor
  · rw [mkLabel_otherTCHappening, other_tc_eq]
    rw [decide_eq_true_eq]
    rw [List.length_pos, Ne, List.filter_eq_nil_iff]
    push_neg
    constructor
    · rintro ⟨p, hp, hcond⟩
      refine ⟨p, hp, ?_⟩
      revert hcond
      cases h : row.genesis <;> simp [h]
    · rintro ⟨p, hp, hcond⟩
      refine ⟨p, hp, ?_⟩
      revert hcond
      cases h : row.genesis <;> simp [h]
  · rw [mkLabel_otherTCLocations, other_tc_eq]

/-- C1 witness: the locations characterization at a concrete joined row
(a genesis row of storm `AL012023` with storm `BB` concurrently active). -/
theorem c1_witness :
    (mkLabel best1 jrowA).otherTCLocations =
      (best1.filter (fun p => decide (p.date = jrowA.originalDate) &&
        match jrowA.genesis with
        | some g => decide (p.sid ≠ g.sid)
        | none => true)).map (fun p => (p.lat, p.lon)) :=
  (c1_other_tc_selection best1 rows1 0 (mkLabel best1 jrowA) jrowA rfl rfl).2

/-! ### C3 — development labels -/

/-- C3: for every genesis row, `Will Develop to TC` is true iff some
track row with the same storm id has nature `TS`, and `Developing Date`
is the date of the first (catalog-order) such row when one exists and
`None` otherwise. -/
theorem c3_develop (best_track_df : List TrackRow) (rows : List JoinedRow)
    (i : Nat) (l : LabelRow) (row : JoinedRow) (g : TrackRow)
    (h1 : (create_labels rows best_track_df).get? i = some l)
    (h2 : rows.get? i = some row) (hg : row.genesis = some g) :
    (l.willDevelop = some true ↔
      ∃ p ∈ best_track_df, p.sid = g.sid ∧ p.nature = "TS") ∧
    l.developingDate =
      ((best_track_df.filter (fun p => decide (p.sid = g.sid) &&
        decide (p.nature = "TS"))).head?).map (fun p => p.date) := by
  have hl : l = mkLabel best_track_df row := by
    have : (create_labels rows best_track_df).get? i = some (mkLabel best_track_df row) := by
      unfold create_labels
      rw [List.get?_map, h2]
      rfl
    rw [this] at h1
    exact (Option.some_inj.mp h1).symm
  subst hl
  have hfilter : (best_track_df.filter (fun p => p.sid == g.sid)).filter
      (fun p => p.nature == "TS") =
      best_track_df.filter (fun p => decide (p.sid = g.sid) && decide (p.nature = "TS")) := by
    rw [List.filter_filter]
    refine List.filter_congr (fun p _ => ?_)
    simp [beq_as_decide, Bool.and_comm]
  have hwill : will_develop_to_tc best_track_df g.sid = true ↔
      ∃ p ∈ best_track_df, p.sid = g.sid ∧ p.nature = "TS" := by
    unfold will_develop_to_tc
    rw [List.any_eq_true]
    constructor
    · rintro ⟨p, hp, hts⟩
      have := List.mem_filter.mp hp
      exact ⟨p, this.1, by simpa using this.2, by simpa using hts⟩
    · rintro ⟨p, hp, hsid, hts⟩
      exact ⟨p, List.mem_filter.mpr ⟨hp, by simpa using hsid⟩, by simpa using hts⟩
  constructor
  · rw [mkLabel_willDevelop best_track_df row g hg, Option.some_inj]
    exact hwill
  · rw [mkLabel_developingDate best_track_df row g hg]
    unfold develop_to_tc_date
    by_cases hw : will_develop_to_tc best_track_df g.sid = true
    · rw [if_pos hw, hfilter]
    · rw [if_neg hw]
      have hempty : best_track_df.filter
          (fun p => decide (p.sid = g.sid) && decide (p.nature = "TS")) = [] := by
        rw [List.filter_eq_nil_iff]
        intro p hp
        simp only [Bool.and_eq_true, decide_eq_true_eq, not_and]
        intro hsid hts
        exact hw (hwill.mpr ⟨p, hp, hsid, hts⟩)
      rw [hempty]
      rfl

/-- C3 witness: the developing-date characterization at a concrete
genesis row. -/
theorem c3_witness :
    (mkLabel best1 jrowA).developingDate =
      ((best1.filter (fun p => decide (p.sid = "AL012023") &&
        decide (p.nature = "TS"))).head?).map (fun p => p.date) :=
  (c3_develop best1 rows1 0 (mkLabel best1 jrowA) jrowA
    ⟨"AL012023", 5, 10, 100, "TD"⟩ rfl rfl rfl).2

/-! ### C6 — the left join never loses observation rows -/

/-- Inserting into the sorted file list adds exactly one row. -/
theorem length_insertByDate (f : FileRow) (l : List FileRow) :
    (insertByDate f l).length = l.length + 1 := by
  induction l with
  | nil => rfl
  | cons g rest ih =>
      unfold insertByDate
      split_ifs <;> simp [ih]

/-- Sorting the file list preserves its length. -/
theorem length_sortFiles (l : List FileRow) : (sortFiles l).length = l.length := by
  induction l with
  | nil => rfl
  | cons f rest ih => simp [sortFiles, length_insertByDate, ih]

/-- Membership in an insertion. -/
theorem mem_insertByDate {a f : FileRow} {l : List FileRow} :
    a ∈ insertByDate f l ↔ a = f ∨ a ∈ l := by
  induction l with
  | nil => simp [insertByDate]
  | cons g rest ih =>
      unfold insertByDate
      split_ifs
      · simp
      · simp only [List.mem_cons, ih]
        tauto

/-- Sorting the file list preserves membership. -/
theorem mem_sortFiles {a : FileRow} {l : List FileRow} : a ∈ sortFiles l ↔ a ∈ l := by
  induction l with
  | nil => simp [sortFiles]
  | cons f rest ih => simp [sortFiles, mem_insertByDate, ih]

/-- A join chunk is never empty. -/
theorem joinChunk_ne_nil (genesis_df : List TrackRow) (f : FileRow) :
    joinChunk genesis_df f ≠ [] := by
  unfold joinChunk
  by_cases h : (genesis_df.filter (fun g => g.date == f.date)).isEmpty
  · simp [h]
  · simp only [h, if_false]
    cases hh : genesis_df.filter (fun g => g.date == f.date) with
    | nil => rw [hh] at h; simp at h
    | cons x xs => simp

/-- Every row of a join chunk carries the left row's fields, and its
genesis part (if any) sits at the joined date. -/
theorem joinChunk_fields {r : JoinedRow} {genesis_df : List TrackRow} {f : FileRow}
    (hr : r ∈ joinChunk genesis_df f) :
    r.date = f.date ∧ r.originalDate = f.originalDate ∧ r.path = f.path ∧
    ∀ g, r.genesis = some g → g.date = f.date := by
  unfold joinChunk at hr
  by_cases h : (genesis_df.filter (fun g => g.date == f.date)).isEmpty
  · rw [if_pos h] at hr
    obtain rfl : r = ⟨f.date, f.originalDate, f.path, none⟩ := by simpa using hr
    exact ⟨rfl, rfl, rfl, by simp⟩
  · rw [if_neg h] at hr
    obtain ⟨g0, hg0, rfl⟩ := List.mem_map.mp hr
    refine ⟨rfl, rfl, rfl, ?_⟩
    intro g hg
    obtain rfl : g0 = g := by simpa using hg
    have := (List.mem_filter.mp hg0).2
    simpa using this

/-- Each left row contributes at least one row to the left join. -/
theorem length_le_leftJoin (files : List FileRow) (genesis_df : List TrackRow) :
    files.length ≤ (leftJoin files genesis_df).length := by
  induction files with
  | nil => simp [leftJoin]
  | cons f rest ih =>
      unfold leftJoin at ih ⊢
      rw [List.flatMap_cons, List.length_append, List.length_cons]
      have hone : 1 ≤ (joinChunk genesis_df f).length :=
        List.length_pos.mpr (joinChunk_ne_nil genesis_df f)
      omega

/-- Every left row produces at least one join row carrying its fields. -/
theorem mem_leftJoin_of_mem {f : FileRow} {files : List FileRow}
    (genesis_df : List TrackRow) (hf : f ∈ files) :
    ∃ r ∈ leftJoin files genesis_df,
      r.date = f.date ∧ r.originalDate = f.originalDate ∧ r.path = f.path := by
  obtain ⟨r, hr⟩ := List.exists_mem_of_ne_nil _ (joinChunk_ne_nil genesis_df f)
  obtain ⟨h1, h2, h3, _⟩ := joinChunk_fields hr
  exact ⟨r, List.mem_flatMap.mpr ⟨f, hf, hr⟩, h1, h2, h3⟩

/-- C6: for every lead time, observation set, catalog and domain, the
left join of shifted observation rows against genesis events yields at
least as many rows as there are observation files, and every observation
row survives into the join (so the post-join assertion
`len(files_genesis_df) >= len(files_df)` never fires). -/
theorem c6_join_keeps_rows (leadtime : Int) (files : List ObsFile)
    (catalog : List TrackRow) (domain : Domain) :
    files.length ≤ (mainJoined leadtime files catalog domain).length ∧
    ∀ f ∈ files, ∃ r ∈ mainJoined leadtime files catalog domain,
      r.date = f.date + leadtime ∧ r.originalDate = f.date ∧ r.path = f.path := by
  constructor
  · have h1 : files.length = (sortFiles (shiftFiles leadtime files)).length := by
      rw [length_sortFiles]
      simp [shiftFiles]
    rw [h1]
    exact length_le_leftJoin _ _
  · intro f hf
    have hmem : (⟨f.date + leadtime, f.date, f.path⟩ : FileRow) ∈
        sortFiles (shiftFiles leadtime files) := by
      rw [mem_sortFiles]
      unfold shiftFiles
      exact List.mem_map.mpr ⟨f, hf, rfl⟩
    obtain ⟨r, hr, hd, ho, hp⟩ := mem_leftJoin_of_mem (load_best_track domain catalog).1 hmem
    exact ⟨r, hr, hd, ho, hp⟩

/-- C6 witness: the surviving join row for the concrete observation file
at hour 5 with lead time 2. -/
theorem c6_witness :
    ∃ r ∈ mainJoined 2 files0 cat0 dom0,
      r.date = 5 + 2 ∧ r.originalDate = 5 ∧ r.path = "obs_a.nc" :=
  (c6_join_keeps_rows 2 files0 cat0 dom0).2 ⟨5, "obs_a.nc"⟩ (by decide)

/-! ### C2 — `Last Observed` -/

/-- In a `≤`-sorted list every element is bounded by the last one. -/
theorem le_getLast_of_pairwise {l : List Int} (hs : List.Pairwise (· ≤ ·) l)
    {a b : Int} (ha : a ∈ l) (hb : l.getLast? = some b) : a ≤ b := by
  induction l with
  | nil => simp at ha
  | cons x xs ih =>
      cases hxs : xs with
      | nil =>
          rw [hxs] at ha hb
          simp at ha hb
          omega
      | cons y ys =>
          have hb' : xs.getLast? = some b := by
            rw [hxs]
            rw [hxs] at hb
            simpa [List.getLast?] using hb
          rcases List.mem_cons.mp ha with rfl | ha'
          · have hbmem : b ∈ xs := by
              obtain ⟨hne, rfl⟩ := List.mem_getLast?_eq_getLast hb'
              exact List.getLast_mem hne
            exact (List.pairwise_cons.mp hs).1 b hbmem
          · exact ih (List.pairwise_cons.mp hs).2 ha' hb'

/-- C2 counterexample: run the pipeline on a catalog whose storm
`AL012023` is recorded out of time order (file order hour 5 then hour 3).
The genesis row's `Last Observed` field is hour 3 (`iloc[-1]`, the last
catalog row), yet a track point of the same storm exists at hour 5 — so
the field is not the maximum timestamp among the storm's track points. -/
theorem c2_counterexample :
    ((mainLabels 0 files0 cat0 dom0).get? 0).map (fun l => (l.tcId, l.lastObserved)) =
      some (some "AL012023", some 3) ∧
    (⟨"AL012023", 5, 10, 100, "TD"⟩ : TrackRow) ∈ (load_best_track dom0 cat0).2 ∧
    ¬((5 : Int) ≤ 3) := by
  refine ⟨by decide, by decide, by decide⟩

/-- C2 (amended): for every genesis row, `Last Observed` is the timestamp
of the last catalog-order track row sharing the storm id; when the
storm's rows appear in nondecreasing time order in the (domain-filtered)
track table, this is the maximum timestamp among all its track points,
as the spec states. -/
theorem c2_last_observed (best_track_df : List TrackRow) (sid : String)
    (h1 : best_track_df.filter (fun p => p.sid == sid) ≠ [])
    (h2 : List.Pairwise (· ≤ ·)
      ((best_track_df.filter (fun p => p.sid == sid)).map (fun p => p.date))) :
    ∃ t, last_observed best_track_df sid = some t ∧
      (∀ p ∈ best_track_df, p.sid = sid → p.date ≤ t) ∧
      ∃ p ∈ best_track_df, p.sid = sid ∧ p.date = t := by
  obtain ⟨r, hrlast⟩ : ∃ r, (best_track_df.filter (fun p => p.sid == sid)).getLast? = some r := by
    cases hl : best_track_df.filter (fun p => p.sid == sid) with
    | nil => exact absurd hl h1
    | cons x xs => exact ⟨(x :: xs).getLast (by simp), List.getLast?_eq_getLast _ _⟩
  have hrmem : r ∈ best_track_df.filter (fun p => p.sid == sid) := by
    obtain ⟨hne, rfl⟩ := List.mem_getLast?_eq_getLast hrlast
    exact List.getLast_mem hne
  have hrbest := List.mem_filter.mp hrmem
  refine ⟨r.date, ?_, ?_, r, hrbest.1, by simpa using hrbest.2, rfl⟩
  · unfold last_observed
    rw [hrlast]
    rfl
  · intro p hp hsid
    have hpmem : p ∈ best_track_df.filter (fun p => p.sid == sid) :=
      List.mem_filter.mpr ⟨hp, by simpa using hsid⟩
    have hdate : p.date ∈ (best_track_df.filter (fun p => p.sid == sid)).map
        (fun p => p.date) := List.mem_map.mpr ⟨p, hpmem, rfl⟩
    have hlast : ((best_track_df.filter (fun p => p.sid == sid)).map
        (fun p => p.date)).getLast? = some r.date := by
      rw [List.getLast?_map, hrlast]
      rfl
    exact le_getLast_of_pairwise h2 hdate hlast

/-- C2 witness: the amended statement applied to a time-ordered catalog. -/
theorem c2_witness :
    ∃ t, last_observed best2 "AL012023" = some t ∧
      (∀ p ∈ best2, p.sid = "AL012023" → p.date ≤ t) ∧
      ∃ p ∈ best2, p.sid = "AL012023" ∧ p.date = t :=
  c2_last_observed best2 "AL012023" (by decide) (by decide)

/-! ### C5 — genesis events -/

/-- No storm id of the rows emitted by `firstPerSid` lies in `seen`. -/
theorem firstPerSid_sid_not_seen : ∀ (df : List TrackRow) (seen : List String),
    ∀ r ∈ firstPerSid df seen, r.sid ∉ seen := by
  intro df
  induction df with
  | nil => intro seen r hr; simp [firstPerSid] at hr
  | cons x rest ih =>
      intro seen r hr
      unfold firstPerSid at hr
      split_ifs at hr with hmem
      · exact ih seen r hr
      · rcases List.mem_cons.mp hr with rfl | hr'
        · exact hmem
        · have := ih (x.sid :: seen) r hr'
          exact fun hcon => this (List.mem_cons_of_mem _ hcon)

/-- The rows of `firstPerSid` with a given storm id not in `seen` are
exactly the first catalog row with that id. -/
theorem firstPerSid_filter_eq : ∀ (df : List TrackRow) (seen : List String) (s : String),
    s ∉ seen →
    (firstPerSid df seen).filter (fun r => r.sid == s) =
      (df.find? (fun r => r.sid == s)).toList := by
  intro df
  induction df with
  | nil => intro seen s _; rfl
  | cons x rest ih =>
      intro seen s hs
      unfold firstPerSid
      by_cases hmem : x.sid ∈ seen
      · rw [if_pos hmem]
        have hxs : ¬(x.sid == s) = true := by
          intro h
          exact hs (by simpa using (beq_iff_eq.mp h) ▸ hmem)
        have hfind : List.find? (fun r => r.sid == s) (x :: rest) =
            List.find? (fun r => r.sid == s) rest := List.find?_cons_of_neg rest hxs
        rw [hfind]
        exact ih seen s hs
      · rw [if_neg hmem]
        by_cases hxs : (x.sid == s) = true
        · have hfind : List.find? (fun r => r.sid == s) (x :: rest) = some x :=
            List.find?_cons_of_pos rest hxs
          have hfilter : List.filter (fun r => r.sid == s)
              (x :: firstPerSid rest (x.sid :: seen)) =
              x :: List.filter (fun r => r.sid == s) (firstPerSid rest (x.sid :: seen)) :=
            List.filter_cons_of_pos hxs
          rw [hfind, hfilter]
          have : (firstPerSid rest (x.sid :: seen)).filter (fun r => r.sid == s) = [] := by
            rw [List.filter_eq_nil_iff]
            intro r hr h
            have := firstPerSid_sid_not_seen rest (x.sid :: seen) r hr
            exact this (by simp [beq_iff_eq.mp h, beq_iff_eq.mp hxs])
          rw [this]
          rfl
        · have hfind : List.find? (fun r => r.sid == s) (x :: rest) =
              List.find? (fun r => r.sid == s) rest := List.find?_cons_of_neg rest hxs
          have hfilter : List.filter (fun r => r.sid == s)
              (x :: firstPerSid rest (x.sid :: seen)) =
              List.filter (fun r => r.sid == s) (firstPerSid rest (x.sid :: seen)) :=
            List.filter_cons_of_neg (by simpa using hxs)
          rw [hfind, hfilter]
          refine ih (x.sid :: seen) s ?_
          intro hcon
          rcases List.mem_cons.mp hcon with rfl | h'
          · exact hxs (by simp)
          · exact hs h'

/-- The first catalog row with a given storm id has the least timestamp
among that storm's rows, provided the catalog lists each storm's rows in
nondecreasing time order. -/
theorem find?_sid_min (s : String) : ∀ (df : List TrackRow),
    List.Pairwise (fun p q : TrackRow => p.sid = q.sid → p.date ≤ q.date) df →
    ∀ g, df.find? (fun r => r.sid == s) = some g →
    ∀ p ∈ df, p.sid = s → g.date ≤ p.date := by
  intro df
  induction df with
  | nil => intro _ g hg; simp at hg
  | cons x rest ih =>
      intro hord g hg p hp hps
      by_cases hxs : (x.sid == s) = true
      · have hfind : List.find? (fun r => r.sid == s) (x :: rest) = some x :=
          List.find?_cons_of_pos rest hxs
        rw [hfind] at hg
        obtain rfl : x = g := by simpa using hg
        rcases List.mem_cons.mp hp with rfl | hp'
        · exact le_refl _
        · exact (List.pairwise_cons.mp hord).1 p hp' (by rw [beq_iff_eq.mp hxs, hps])
      · have hfind : List.find? (fun r => r.sid == s) (x :: rest) =
            List.find? (fun r => r.sid == s) rest := List.find?_cons_of_neg rest hxs
        rw [hfind] at hg
        rcases List.mem_cons.mp hp with rfl | hp'
        · exact absurd (by simp [hps]) hxs
        · exact ih (List.pairwise_cons.mp hord).2 g hg p hp' hps

/-- C5 counterexample: in a catalog whose storm `AL012023` is recorded
out of time order, the derived genesis event (the first-in-file row, at
hour 5) has a strictly later timestamp than another track point of the
same storm (hour 3), so it is not the chronologically first track point
and the invariant "genesis timestamp ≤ every other track point
timestamp" fails. -/
theorem c5_counterexample :
    ∃ g, (firstPerSid (cat0.map normalizeRow) []).filter (fun r => r.sid == "AL012023") =
        [g] ∧
      ∃ p ∈ cat0.map normalizeRow, p.sid = "AL012023" ∧ ¬(g.date ≤ p.date) := by
  refine ⟨⟨"AL012023", 5, 10, 100, "TD"⟩, by decide,
    ⟨"AL012023", 3, 11, 101, "TS"⟩, by decide, by decide, by decide⟩

/-- C5 (amended): for every storm id occurring in the catalog the genesis
table contains exactly one row, namely the first-in-file row with that
id; when each storm's catalog rows appear in nondecreasing time order —
but only then — that row is also chronologically first, i.e. its
timestamp is ≤ the timestamp of every other track point of the storm. -/
theorem c5_genesis_unique (df : List TrackRow) (s : String)
    (hs : s ∈ df.map (fun r => r.sid))
    (hord : List.Pairwise (fun p q : TrackRow => p.sid = q.sid → p.date ≤ q.date) df) :
    ∃ g, (firstPerSid df []).filter (fun r => r.sid == s) = [g] ∧
      g ∈ df ∧ g.sid = s ∧ ∀ p ∈ df, p.sid = s → g.date ≤ p.date := by
  obtain ⟨r, hrmem, hrs⟩ := List.mem_map.mp hs
  have hfind : ∃ g, df.find? (fun r => r.sid == s) = some g := by
    rw [← Option.isSome_iff_exists, List.find?_isSome]
    exact ⟨r, hrmem, by simp [hrs]⟩
  obtain ⟨g, hg⟩ := hfind
  refine ⟨g, ?_, List.mem_of_find?_eq_some hg, by simpa using List.find?_some hg,
    find?_sid_min s df hord g hg⟩
  rw [firstPerSid_filter_eq df [] s (by simp), hg]
  rfl

/-- C5 witness: the amended statement applied to a time-ordered catalog. -/
theorem c5_witness :
    ∃ g, (firstPerSid best2 []).filter (fun r => r.sid == "AL012023") = [g] ∧
      g ∈ best2 ∧ g.sid = "AL012023" ∧
      ∀ p ∈ best2, p.sid = "AL012023" → g.date ≤ p.date :=
  c5_genesis_unique best2 "AL012023" (by decide) (by decide)

/-! ### C10 — the `Date` and `First Observed` fields are shifted dates -/

/-- C10: every output row's `Date` equals its observation file's original
timestamp plus the lead time (the shifted join key); any matched genesis
event sits exactly at that shifted date; and for every genesis row the
`First Observed` field equals that same shifted `Date`. -/
theorem c10_dates (leadtime : Int) (files : List ObsFile) (catalog : List TrackRow)
    (domain : Domain) (i : Nat) (l : LabelRow) (row : JoinedRow)
    (h1 : (mainLabels leadtime files catalog domain).get? i = some l)
    (h2 : (mainJoined leadtime files catalog domain).get? i = some row) :
    l.date = row.originalDate + leadtime ∧
    (∃ f ∈ files, row.originalDate = f.date ∧ row.path = f.path) ∧
    (∀ g, row.genesis = some g → g.date = l.date) ∧
    (l.genesis = true → l.firstObserved = some l.date) := by
  have hl : l = mkLabel (load_best_track domain catalog).2 row := by
    have : (mainLabels leadtime files catalog domain).get? i =
        some (mkLabel (load_best_track domain catalog).2 row) := by
      unfold mainLabels create_labels
      rw [List.get?_map, h2]
      rfl
    rw [this] at h1
    exact (Option.some_inj.mp h1).symm
  have hrow : row ∈ mainJoined leadtime files catalog domain := List.get?_mem h2
  unfold mainJoined leftJoin at hrow
  obtain ⟨f', hf', hchunk⟩ := List.mem_flatMap.mp hrow
  obtain ⟨hd, ho, hp, hgen⟩ := joinChunk_fields hchunk
  obtain ⟨f, hf, rfl⟩ : ∃ f ∈ files, (⟨f.date + leadtime, f.date, f.path⟩ : FileRow) = f' := by
    have := mem_sortFiles.mp hf'
    unfold shiftFiles at this
    obtain ⟨f, hf, heq⟩ := List.mem_map.mp this
    exact ⟨f, hf, heq⟩
  have hldate : l.date = row.date := by rw [hl]; exact mkLabel_date _ row
  refine ⟨?_, ⟨f, hf, by simpa using ho, by simpa using hp⟩, ?_, ?_⟩
  · rw [hldate, hd, ho]
  · intro g hg
    rw [hldate, hd]
    exact hgen g hg
  · intro hgenesis
    have : row.genesis.isSome = true := by
      rw [hl] at hgenesis
      rw [mkLabel_genesis] at hgenesis
      exact hgenesis
    obtain ⟨g, hg⟩ := Option.isSome_iff_exists.mp this
    rw [hl, mkLabel_firstObserved _ row g hg, mkLabel_date]

/-- C10 witness: the date relation at the concrete non-genesis row
produced by lead time 2 from the hour-5 observation file. -/
theorem c10_witness :
    (mkLabel (load_best_track dom0 cat0).2 jrow0).date = jrow0.originalDate + 2 :=
  (c10_dates 2 files0 cat0 dom0 0 (mkLabel (load_best_track dom0 cat0).2 jrow0) jrow0
    (by decide) (by decide)).1

/-! ### C8 — filename timestamp parsing -/

/-- A digit character is not a separator, a dot, or an underscore. -/
theorem isDigit_ne (c : Char) (h : c.isDigit = true) :
    ¬c = '/' ∧ ¬c = '.' ∧ ¬c = '_' := by
  refine ⟨?_, ?_, ?_⟩ <;> rintro rfl <;> exact absurd h (by decide)

/-- `takeWhile` keeps a list all of whose elements satisfy the predicate. -/
theorem takeWhile_of_all {α : Type} (p : α → Bool) :
    ∀ (l : List α), (∀ x ∈ l, p x = true) → l.takeWhile p = l := by
  intro l
  induction l with
  | nil => intro _; rfl
  | cons x xs ih =>
      intro h
      rw [List.takeWhile_cons_of_pos (h x (by simp))]
      rw [ih (fun y hy => h y (List.mem_cons_of_mem _ hy))]

/-- `basename` is the identity on separator-free names. -/
theorem basename_of_no_sep (l : List Char) (h : ∀ x ∈ l, ¬x = '/') :
    basename l = l := by
  unfold basename
  rw [takeWhile_of_all _ _ (fun x hx => by
    simp only [Bool.not_eq_true']
    exact beq_eq_false_iff_ne.mpr (h x (List.mem_reverse.mp hx)))]
  exact List.reverse_reverse l

/-- Splitting a separator-free list produces the single piece. -/
theorem splitOnChar_of_no_sep (c : Char) : ∀ (xs : List Char),
    (∀ x ∈ xs, ¬x = c) → splitOnChar c xs = [xs] := by
  intro xs
  induction xs with
  | nil => intro _; rfl
  | cons x rest ih =>
      intro h
      show splitOnCharAux c x (splitOnChar c rest) = [[x] ++ rest]
      rw [ih (fun y hy => h y (List.mem_cons_of_mem _ hy))]
      unfold splitOnCharAux
      rw [if_neg (h x (by simp))]
      rfl

/-- Splitting peels off one separator-free piece at each separator. -/
theorem splitOnChar_append (c : Char) : ∀ (xs ys : List Char),
    (∀ x ∈ xs, ¬x = c) →
    splitOnChar c (xs ++ c :: ys) = xs :: splitOnChar c ys := by
  intro xs
  induction xs with
  | nil =>
      intro ys _
      show splitOnCharAux c c (splitOnChar c ys) = [] :: splitOnChar c ys
      unfold splitOnCharAux
      rw [if_pos rfl]
  | cons x rest ih =>
      intro ys h
      show splitOnCharAux c x (splitOnChar c (rest ++ c :: ys)) =
        (x :: rest) :: splitOnChar c ys
      rw [ih ys (fun y hy => h y (List.mem_cons_of_mem _ hy))]
      unfold splitOnCharAux
      rw [if_neg (h x (by simp))]

/-- `splitext` on a dot-free base with extension `.nc` returns the base. -/
theorem splitextStem_append_nc (A : List Char) (hne : A ≠ []) (hA : ∀ x ∈ A, ¬x = '.') :
    splitextStem (A ++ '.' :: 'n' :: 'c' :: []) = A := by
  unfold splitextStem
  have hrev : (A ++ '.' :: 'n' :: 'c' :: []).reverse = 'c' :: 'n' :: '.' :: A.reverse := by
    simp [List.reverse_append]
  rw [hrev]
  have hidx : List.findIdx? (fun c => c == '.') ('c' :: 'n' :: '.' :: A.reverse) = some 2 := by
    simp [List.findIdx?_cons]
  rw [hidx]
  have hlen : (A ++ '.' :: 'n' :: 'c' :: []).length - 1 - 2 = A.length := by
    simp
  simp only [hlen]
  have htake : (A ++ '.' :: 'n' :: 'c' :: []).take A.length = A := List.take_left A _
  rw [htake]
  have hany : (A.any (fun c => !(c == '.'))) = true := by
    cases A with
    | nil => exact absurd rfl hne
    | cons x xs =>
        simp only [List.any_cons, Bool.or_eq_true]
        exact Or.inl (by simp [beq_eq_false_iff_ne.mpr (hA x (by simp))])
  rw [if_pos hany]

/-- `strptime('%Y%m%d_%H_%M')` succeeds once every field matcher does. -/
theorem strptimeYmdHM_parts (p0 p1 p2 : List Char) (s : List Char) (m d h mi : Nat)
    (hs : splitOnChar '_' s = [p0, p1, p2])
    (hdig : (p0.all Char.isDigit && p1.all Char.isDigit && p2.all Char.isDigit) = true)
    (hmd : monthDayOf (p0.drop 4) = some (m, d))
    (hhr : hourOf p1 = some h)
    (hmi : minuteOf p2 = some mi)
    (hy : 1 ≤ natOfDigits (p0.take 4))
    (hday : d ≤ daysInMonth (natOfDigits (p0.take 4)) m) :
    strptimeYmdHM s = some ⟨natOfDigits (p0.take 4), m, d, h, mi⟩ := by
  unfold strptimeYmdHM
  rw [hs]
  simp only [hdig, if_true, hmd, hhr, hmi]
  rw [if_pos (by simp only [Bool.and_eq_true, decide_eq_true_eq]; exact ⟨hy, hday⟩)]

/-- C8 (amended): for every `.nc` observation filename built from a
single underscore-free, dot-free, separator-free prefix token and a
remainder, the File Indexer strips the extension, splits the stem on
`_`, discards the prefix token, rejoins the rest with `_`, and parses
the result with `strptime('%Y%m%d_%H_%M')`; whenever the remainder
matches the textual pattern `YYYYMMDD_HH_MM` AND denotes a valid
calendar date (year ≥ 1, day within the month), the parse succeeds and
returns exactly the encoded timestamp (so `obs_20230801_00_00.nc`
yields 2023-08-01T00:00:00).  A parse error occurs exactly when the
`strptime` parse fails, which is not the same as failing the textual
pattern: `strptime` also rejects calendar-invalid matching remainders
and accepts some non-matching ones with 1–2 digit fields. -/
theorem c8_strict_pattern_parses (pre : List Char)
    (hpre : ∀ x ∈ pre, ¬x = '_' ∧ ¬x = '/' ∧ ¬x = '.')
    (y1 y2 y3 y4 a b c d h1 h2 n1 n2 : Char)
    (hm : matchesSpecPattern [y1, y2, y3, y4, a, b, c, d, '_', h1, h2, '_', n1, n2] = true)
    (hy : 1 ≤ natOfDigits [y1, y2, y3, y4])
    (hday : natOfDigits [c, d] ≤
      daysInMonth (natOfDigits [y1, y2, y3, y4]) (natOfDigits [a, b])) :
    parse_date_from_nc_filename
      (pre ++ '_' :: [y1, y2, y3, y4, a, b, c, d, '_', h1, h2, '_', n1, n2] ++
        '.' :: 'n' :: 'c' :: []) =
      some ⟨natOfDigits [y1, y2, y3, y4], natOfDigits [a, b], natOfDigits [c, d],
        natOfDigits [h1, h2], natOfDigits [n1, n2]⟩ := by
  simp only [matchesSpecPattern, Bool.and_eq_true, decide_eq_true_eq, List.all_cons,
    List.all_nil, and_true, beq_self_eq_true, true_and] at hm
  obtain ⟨⟨⟨⟨⟨⟨hdig, hm1⟩, hm2⟩, hd1⟩, hd2⟩, hh⟩, hn⟩ := hm
  obtain ⟨hgy1, hgy2, hgy3, hgy4, hga, hgb, hgc, hgd, hgh1, hgh2, hgn1, hgn2⟩ := hdig
  have hy1 := isDigit_ne y1 hgy1
  have hy2 := isDigit_ne y2 hgy2
  have hy3 := isDigit_ne y3 hgy3
  have hy4 := isDigit_ne y4 hgy4
  have ha := isDigit_ne a hga
  have hb := isDigit_ne b hgb
  have hc := isDigit_ne c hgc
  have hd := isDigit_ne d hgd
  have hh1 := isDigit_ne h1 hgh1
  have hh2 := isDigit_ne h2 hgh2
  have hn1 := isDigit_ne n1 hgn1
  have hn2 := isDigit_ne n2 hgn2
  have hund : ∀ x ∈ ([y1, y2, y3, y4, a, b, c, d] : List Char), ¬x = '_' := by
    intro x hx
    simp only [List.mem_cons, List.not_mem_nil, or_false] at hx
    rcases hx with rfl | rfl | rfl | rfl | rfl | rfl | rfl | rfl
    exacts [hy1.2.2, hy2.2.2, hy3.2.2, hy4.2.2, ha.2.2, hb.2.2, hc.2.2, hd.2.2]
  have hundh : ∀ x ∈ ([h1, h2] : List Char), ¬x = '_' := by
    intro x hx
    simp only [List.mem_cons, List.not_mem_nil, or_false] at hx
    rcases hx with rfl | rfl
    exacts [hh1.2.2, hh2.2.2]
  have hundn : ∀ x ∈ ([n1, n2] : List Char), ¬x = '_' := by
    intro x hx
    simp only [List.mem_cons, List.not_mem_nil, or_false] at hx
    rcases hx with rfl | rfl
    exacts [hn1.2.2, hn2.2.2]
  set A : List Char :=
    pre ++ '_' :: [y1, y2, y3, y4, a, b, c, d, '_', h1, h2, '_', n1, n2] with hAdef
  unfold parse_date_from_nc_filename
  have hbase : basename (A ++ '.' :: 'n' :: 'c' :: []) = A ++ '.' :: 'n' :: 'c' :: [] := by
    refine basename_of_no_sep _ (fun x hx => ?_)
    rw [hAdef] at hx
    simp only [List.mem_append, List.mem_cons, List.not_mem_nil, or_false] at hx
    rcases hx with (hx | hx) | hx
    · exact (hpre x hx).2.1
    · rcases hx with rfl | rfl | rfl | rfl | rfl | rfl | rfl | rfl | rfl | rfl | rfl |
        rfl | rfl | rfl | rfl
      exacts [by decide, hy1.1, hy2.1, hy3.1, hy4.1, ha.1, hb.1, hc.1, hd.1,
        by decide, hh1.1, hh2.1, by decide, hn1.1, hn2.1]
    · rcases hx with rfl | rfl | rfl <;> decide
  rw [hbase]
  have hstem : splitextStem (A ++ '.' :: 'n' :: 'c' :: []) = A := by
    refine splitextStem_append_nc A (by simp [hAdef]) (fun x hx => ?_)
    rw [hAdef] at hx
    simp only [List.mem_append, List.mem_cons, List.not_mem_nil, or_false] at hx
    rcases hx with hx | hx
    · exact (hpre x hx).2.2
    · rcases hx with rfl | rfl | rfl | rfl | rfl | rfl | rfl | rfl | rfl | rfl | rfl |
        rfl | rfl | rfl | rfl
      exacts [by decide, hy1.2.1, hy2.2.1, hy3.2.1, hy4.2.1, ha.2.1, hb.2.1, hc.2.1,
        hd.2.1, by decide, hh1.2.1, hh2.2.1, by decide, hn1.2.1, hn2.2.1]
  rw [hstem]
  show strptimeYmdHM (List.intercalate ['_'] ((splitOnChar '_' A).drop 1)) = _
  have hsplitA : splitOnChar '_' A =
      pre :: [y1, y2, y3, y4, a, b, c, d] :: [h1, h2] :: [[n1, n2]] := by
    rw [hAdef]
    have e1 : pre ++ '_' :: [y1, y2, y3, y4, a, b, c, d, '_', h1, h2, '_', n1, n2] =
        pre ++ '_' :: ([y1, y2, y3, y4, a, b, c, d] ++
          '_' :: ([h1, h2] ++ '_' :: [n1, n2])) := rfl
    rw [e1]
    rw [splitOnChar_append '_' pre _ (fun x hx => (hpre x hx).1)]
    rw [splitOnChar_append '_' [y1, y2, y3, y4, a, b, c, d] _ hund]
    rw [splitOnChar_append '_' [h1, h2] _ hundh]
    rw [splitOnChar_of_no_sep '_' [n1, n2] hundn]
  rw [hsplitA]
  have hinter : List.intercalate ['_']
      (List.drop 1 (pre :: [y1, y2, y3, y4, a, b, c, d] :: [h1, h2] :: [[n1, n2]])) =
      [y1, y2, y3, y4, a, b, c, d] ++ '_' :: ([h1, h2] ++ '_' :: [n1, n2]) := by
    simp [List.intercalate, List.intersperse]
  rw [hinter]
  have hmd : monthDayOf (([y1, y2, y3, y4, a, b, c, d] : List Char).drop 4) =
      some (natOfDigits [a, b], natOfDigits [c, d]) := by
    show monthDayOf [a, b, c, d] = _
    have hcond : (decide (1 ≤ natOfDigits [a, b]) && decide (natOfDigits [a, b] ≤ 12) &&
        decide (1 ≤ natOfDigits [c, d]) && decide (natOfDigits [c, d] ≤ 31)) = true := by
      simp only [Bool.and_eq_true, decide_eq_true_eq]
      exact ⟨⟨⟨hm1, hm2⟩, hd1⟩, hd2⟩
    simp [monthDayOf, hcond]
  have hhour : hourOf [h1, h2] = some (natOfDigits [h1, h2]) := by
    simp [hourOf, hh]
  have hmin : minuteOf [n1, n2] = some (natOfDigits [n1, n2]) := by
    simp [minuteOf, hn]
  exact strptimeYmdHM_parts [y1, y2, y3, y4, a, b, c, d] [h1, h2] [n1, n2] _
    (natOfDigits [a, b]) (natOfDigits [c, d]) (natOfDigits [h1, h2]) (natOfDigits [n1, n2])
    (by rw [splitOnChar_append '_' [y1, y2, y3, y4, a, b, c, d] _ hund]
        rw [splitOnChar_append '_' [h1, h2] _ hundh]
        rw [splitOnChar_of_no_sep '_' [n1, n2] hundn])
    (by simp [hgy1, hgy2, hgy3, hgy4, hga, hgb, hgc, hgd, hgh1, hgh2, hgn1, hgn2])
    hmd hhour hmin hy hday


/-- C8 counterexample: the remainder `20230231_00_00` matches the
textual pattern `YYYYMMDD_HH_MM` (month 02, day 31), yet the code's
`strptime` raises `ValueError` — February has no day 31 — so "raises a
parse error exactly when the remainder does not match this pattern" is
false. -/
theorem c8_counterexample :
    matchesSpecPattern "20230231_00_00".toList = true ∧
    parse_date_from_nc_filename "obs_20230231_00_00.nc".toList = none := by
  refine ⟨by decide, by decide⟩

/-- C8 witness: the amended statement instantiated at the spec's own
example `obs_20230801_00_00.nc`, which parses to 2023-08-01T00:00:00. -/
theorem c8_witness :
    parse_date_from_nc_filename "obs_20230801_00_00.nc".toList =
      some ⟨2023, 8, 1, 0, 0⟩ := by
  have h := c8_strict_pattern_parses ['o', 'b', 's'] (by decide)
    '2' '0' '2' '3' '0' '8' '0' '1' '0' '0' '0' '0' (by decide) (by decide) (by decide)
  exact h

end CreateLabelsV2
